import Mathlib

/-!
Verification development for the evREwhere repository.

The repository ships the fixture `examples/wrong_class.hpp`, a known-bad
input for a naming-convention checker.  The checker engine itself
(Declaration Model, Scope Resolver, Rule Engine, Diagnostic Collector)
is described by the specification but its code is not part of the
repository sources; those components are modelled here from the
specification text.  The fixture's declaration stream is embedded
directly from `examples/wrong_class.hpp`.
-/

namespace Evre

/-- Modelled from the spec (§3 Data Model): declaration kinds.  The
Declaration Model code is missing from the repository sources. -/
inductive DeclKind where
  | Class
  | Function
  | Variable
  | TemplateClass
deriving DecidableEq, Repr

/-- Modelled from the spec (§4.1): kinds of template parameters; the
resolver compares parameter count and kind only, never the identifier. -/
inductive TParamKind where
  | TypeParam
  | NonTypeParam
  | TemplateTemplateParam
deriving DecidableEq, Repr

/-- Modelled from the spec (§3): a template parameter carries its kind and
its chosen identifier (the identifier is never compared). -/
structure TParam where
  kind : TParamKind
  name : String
deriving DecidableEq, Repr

/-- Modelled from the spec (§6): a source position (file, line, column). -/
structure Pos where
  file : String
  line : Nat
  col : Nat
deriving DecidableEq, Repr

/-- Modelled from the spec (§3, §6): one Declaration record as emitted by
the external parser: kind, name as spelled, qualified-name path, source
position, is-definition flag, template-parameter list, and syntactic role
(in-class declaration vs. out-of-line definition). -/
structure Declaration where
  kind : DeclKind
  name : String
  qualifiedPath : List String
  pos : Pos
  isDefinition : Bool
  templateParams : List TParam
  isOutOfLine : Bool
deriving DecidableEq, Repr

/-- Modelled from the spec (§3): a Symbol merges one in-class declaration
with its out-of-line definitions; canonical qualified name, kind, and the
constituent Declarations in source order. -/
structure Symbol where
  qualifiedName : List String
  kind : DeclKind
  decls : List Declaration
deriving DecidableEq, Repr

/-- Modelled from the spec (§9 Design Notes): the name-shape predicate is a
closed tagged-variant type evaluated by exhaustive pattern matching. -/
inductive NameShape where
  | requiredStart (p : String)
  | maxLen (n : Nat)
  | lowercaseStart
deriving DecidableEq, Repr

/-- Modelled from the spec (§3): a Rule with identifier, applicable kinds,
name-shape predicate, and message template. -/
structure Rule where
  id : String
  appliesTo : List DeclKind
  shape : NameShape
  message : String
deriving DecidableEq, Repr

/-- Modelled from the spec (§3, §6): a Violation record. -/
structure Violation where
  symQualifiedName : List String
  symKind : DeclKind
  ruleId : String
  message : String
  pos : Pos
deriving DecidableEq, Repr

/-- Modelled from the spec (§7): resolver-level diagnostics, either an
unresolved out-of-line definition or a secondary ambiguity note. -/
inductive ResolveDiag where
  | unresolvedDefinition (d : Declaration)
  | ambiguity (d : Declaration)
deriving DecidableEq, Repr

/-- Modelled from the spec (§4.1): kind compatibility for symbol merging
(Class and TemplateClass are compatible). -/
def kindCompatible (a b : DeclKind) : Bool :=
  decide (a = b)
  || (decide (a = DeclKind.Class) && decide (b = DeclKind.TemplateClass))
  || (decide (a = DeclKind.TemplateClass) && decide (b = DeclKind.Class))

/-- The template-parameter kinds of the Symbol's first (in-class)
declaration. -/
def symTParamKinds (s : Symbol) : List TParamKind :=
  match s.decls with
  | [] => []
  | d :: _ => d.templateParams.map (fun p => p.kind)

/-- Modelled from the spec (§4.1): a Declaration matches a Symbol when the
qualified names agree, the kinds are compatible, and the template-parameter
lists agree in count and kind (the parameter identifiers are ignored). -/
def declMatches (d : Declaration) (s : Symbol) : Bool :=
  decide (d.qualifiedPath = s.qualifiedName)
  && kindCompatible d.kind s.kind
  && decide (d.templateParams.map (fun p => p.kind) = symTParamKinds s)

/-- Append a Declaration to the first matching Symbol of the list. -/
def addToFirstMatch (d : Declaration) : List Symbol → List Symbol
  | [] => []
  | s :: rest =>
    if declMatches d s then { s with decls := s.decls ++ [d] } :: rest
    else s :: addToFirstMatch d rest

/-- Number of in-class (not out-of-line) declarations of a Symbol. -/
def inClassCount (s : Symbol) : Nat :=
  (s.decls.filter (fun d => !d.isOutOfLine)).length

/-- Resolver state: Symbols in discovery order plus diagnostics. -/
structure ResolveState where
  symbols : List Symbol
  diags : List ResolveDiag
deriving DecidableEq, Repr

/-- Modelled from the spec (§4.1, §7): one resolution step.  A matching
Declaration is appended to the first matching Symbol in source order; an
out-of-line definition binding to a Symbol with two or more colliding
in-class declarations additionally emits a secondary ambiguity diagnostic;
an out-of-line definition with no match is reported as an unresolved
definition, never dropped and never merged into an unrelated Symbol; a
fresh in-class declaration opens a new Symbol. -/
def resolveStep (st : ResolveState) (d : Declaration) : ResolveState :=
  match st.symbols.find? (declMatches d) with
  | some s =>
      { symbols := addToFirstMatch d st.symbols
        diags :=
          if d.isOutOfLine && decide (2 ≤ inClassCount s) then
            st.diags ++ [ResolveDiag.ambiguity d]
          else st.diags }
  | none =>
      if d.isOutOfLine then
        { st with diags := st.diags ++ [ResolveDiag.unresolvedDefinition d] }
      else
        { st with
            symbols := st.symbols ++ [⟨d.qualifiedPath, d.kind, [d]⟩] }

/-- Modelled from the spec (§4.1): the Scope Resolver, a pure fold over the
Declaration stream in source order. -/
def resolve (ds : List Declaration) : ResolveState :=
  ds.foldl resolveStep ⟨[], []⟩

/-- Character-list test: the first list is an initial segment of the
second. -/
def listStartsWith : List Char → List Char → Bool
  | [], _ => true
  | _ :: _, [] => false
  | p :: ps, c :: cs => decide (p = c) && listStartsWith ps cs

/-- Character-list test: the first list occurs contiguously inside the
second. -/
def hasSubList (pin : List Char) : List Char → Bool
  | [] => decide (pin = [])
  | c :: rest => listStartsWith pin (c :: rest) || hasSubList pin rest

/-- A string mentions another when the latter occurs contiguously in the
former. -/
def mentionsText (hay pin : String) : Bool :=
  hasSubList pin.data hay.data

/-- Modelled from the spec (§4.2): evaluate a name-shape predicate on a
name string. -/
def shapeHolds : NameShape → String → Bool
  | NameShape.requiredStart p, s => listStartsWith p.data s.data
  | NameShape.maxLen n, s => decide (s.data.length ≤ n)
  | NameShape.lowercaseStart, s =>
      match s.data with
      | [] => false
      | c :: _ => c.isLower

/-- Modelled from the spec (§4.2): a Rule applies to a Symbol kind when the
kind is listed; rules for Class also apply to TemplateClass. -/
def ruleApplies (r : Rule) (k : DeclKind) : Bool :=
  r.appliesTo.contains k
  || (decide (k = DeclKind.TemplateClass) && r.appliesTo.contains DeclKind.Class)

/-- The Symbol's simple name: the last component of the qualified path. -/
def simpleName (s : Symbol) : String :=
  (s.qualifiedName.getLast?).getD ""

/-- The Symbol's qualified name rendered with double-colon separators. -/
def qualName (s : Symbol) : String :=
  String.intercalate "::" s.qualifiedName

/-- Human-readable kind names used in rendered messages. -/
def kindName : DeclKind → String
  | DeclKind.Class => "class"
  | DeclKind.Function => "function"
  | DeclKind.Variable => "variable"
  | DeclKind.TemplateClass => "template class"

/-- Modelled from the spec (§4.2): render the Rule's message template,
substituting the Symbol's kind and qualified name. -/
def renderMessage (r : Rule) (s : Symbol) : String :=
  r.message ++ " [" ++ kindName s.kind ++ " " ++ qualName s ++ "]"

/-- Primary source position of a Symbol: the in-class declaration's
position, preferred over definitions. -/
def primaryPos (s : Symbol) : Pos :=
  match s.decls.find? (fun d => !d.isOutOfLine) with
  | some d => d.pos
  | none =>
    match s.decls with
    | [] => ⟨"", 0, 0⟩
    | d :: _ => d.pos

/-- Synthesize a Violation of a Rule by a Symbol. -/
def mkViolation (s : Symbol) (r : Rule) : Violation :=
  ⟨s.qualifiedName, s.kind, r.id, renderMessage r s, primaryPos s⟩

/-- Modelled from the spec (§4.2): evaluate one Symbol against the Rules in
declaration order, emitting one Violation per failing applicable Rule and
never stopping at the first failure.  The name-shape predicate is applied
to the simple name only. -/
def evalRules (s : Symbol) : List Rule → List Violation
  | [] => []
  | r :: rs =>
    if ruleApplies r s.kind && !shapeHolds r.shape (simpleName s) then
      mkViolation s r :: evalRules s rs
    else
      evalRules s rs

/-- Modelled from the spec (§4.2): the Rule Engine evaluates the Symbols in
discovery order. -/
def evaluate (rules : List Rule) : List Symbol → List Violation
  | [] => []
  | s :: rest => evalRules s rules ++ evaluate rules rest

/-- Modelled from the spec (§4.3): the deduplication key is the Symbol
identity (qualified name and kind) together with the Rule identifier. -/
def sameKey (a b : Violation) : Bool :=
  decide (a.symQualifiedName = b.symQualifiedName)
  && decide (a.symKind = b.symKind)
  && decide (a.ruleId = b.ruleId)

/-- One lexicographic comparison step: strictly smaller on this component,
or equal and decided by the rest. -/
def lexLE {α : Type} [LinearOrder α] (x y : α) (rest : Bool) : Bool :=
  if x = y then rest else decide (x < y)

/-- Modelled from the spec (§4.3): final ordering of Violations by (source
file, line, column) of the primary position, ties broken by Rule
identifier lexical order. -/
def violLE (a b : Violation) : Bool :=
  lexLE a.pos.file b.pos.file
    (lexLE a.pos.line b.pos.line
      (lexLE a.pos.col b.pos.col (decide (a.ruleId ≤ b.ruleId))))

/-- Insert a Violation into an already ordered list. -/
def insertOrdered (v : Violation) : List Violation → List Violation
  | [] => [v]
  | w :: ws => if violLE v w then v :: w :: ws else w :: insertOrdered v ws

/-- Modelled from the spec (§4.3): the final sort of the collection. -/
def sortViolations (vs : List Violation) : List Violation :=
  vs.foldr insertOrdered []

/-- Modelled from the spec (§4.3): the Diagnostic Collector state machine
Empty → Collecting → Finalized. -/
inductive CollectorState where
  | empty
  | collecting (vs : List Violation)
  | finalized (vs : List Violation)
deriving DecidableEq, Repr

/-- Modelled from the spec (§7): a Usage-Order Error is a programming
contract violation signalled loudly. -/
inductive CollectorError where
  | usageOrder
deriving DecidableEq, Repr

namespace Collector

/-- Modelled from the spec (§4.3): incremental insertion.  A Violation
whose (Symbol identity, Rule identifier) key is already retained is
dropped (dedup idempotence); inserting into a Finalized collector fails
loudly with a usage-order error. -/
def insert : CollectorState → Violation → Except CollectorError CollectorState
  | CollectorState.empty, v => Except.ok (CollectorState.collecting [v])
  | CollectorState.collecting vs, v =>
      if vs.any (fun w => sameKey w v) then Except.ok (CollectorState.collecting vs)
      else Except.ok (CollectorState.collecting (vs ++ [v]))
  | CollectorState.finalized _, _ => Except.error CollectorError.usageOrder

/-- Modelled from the spec (§4.3): finalization sorts and freezes the
collection; finalizing an empty collector yields an empty sequence. -/
def finalize : CollectorState → Except CollectorError CollectorState
  | CollectorState.empty => Except.ok (CollectorState.finalized [])
  | CollectorState.collecting vs =>
      Except.ok (CollectorState.finalized (sortViolations vs))
  | CollectorState.finalized _ => Except.error CollectorError.usageOrder

end Collector

/-- Driver: feed one Violation, keeping the state unchanged on error. -/
def feed (c : CollectorState) (v : Violation) : CollectorState :=
  match Collector.insert c v with
  | Except.ok c2 => c2
  | Except.error _ => c

/-- Driver: feed a sequence of Violations. -/
def collect : CollectorState → List Violation → CollectorState
  | c, [] => c
  | c, v :: vs => collect (feed c v) vs

/-- Modelled from the spec (§2 data flow): the full pipeline — Scope
Resolver, Rule Engine, Diagnostic Collector with final sort — returning
the finalized Violation sequence and the resolver diagnostics. -/
def runPipeline (rules : List Rule) (ds : List Declaration) :
    List Violation × List ResolveDiag :=
  let st := resolve ds
  let c := collect CollectorState.empty (evaluate rules st.symbols)
  match Collector.finalize c with
  | Except.ok (CollectorState.finalized vs) => (vs, st.diags)
  | _ => ([], st.diags)

/-! ## The fixture `examples/wrong_class.hpp`

The declaration stream of the fixture, embedded from the source file:
namespace `evre` holds `template <typename T> class Widget` (lines 5-12)
whose body declares the constructor `Widget<T>() = default;` (line 8,
spelled with an explicit template-argument list) and the member functions
`foo` (line 10) and `bar` (line 11), followed by the out-of-line
definitions of `foo` (lines 14-17) and `bar` (lines 19-22). -/

/-- The fixture file name. -/
def fixtureFile : String := "examples/wrong_class.hpp"

/-- Line 5-12: `template <typename T> class Widget`. -/
def widgetClassDecl : Declaration :=
  ⟨DeclKind.TemplateClass, "Widget", ["evre", "Widget"],
   ⟨fixtureFile, 6, 7⟩, false, [⟨TParamKind.TypeParam, "T"⟩], false⟩

/-- Line 8: `Widget<T>() = default;` — the constructor, spelled with an
explicit template-argument list. -/
def widgetCtorDecl : Declaration :=
  ⟨DeclKind.Function, "Widget<T>", ["evre", "Widget", "Widget<T>"],
   ⟨fixtureFile, 8, 2⟩, true, [⟨TParamKind.TypeParam, "T"⟩], false⟩

/-- Line 10: `void foo();` — in-class declaration. -/
def fooDecl : Declaration :=
  ⟨DeclKind.Function, "foo", ["evre", "Widget", "foo"],
   ⟨fixtureFile, 10, 7⟩, false, [⟨TParamKind.TypeParam, "T"⟩], false⟩

/-- Line 11: `void bar();` — in-class declaration. -/
def barDecl : Declaration :=
  ⟨DeclKind.Function, "bar", ["evre", "Widget", "bar"],
   ⟨fixtureFile, 11, 7⟩, false, [⟨TParamKind.TypeParam, "T"⟩], false⟩

/-- Lines 14-17: `template <typename T> void evre::Widget<T>::foo()` —
out-of-line definition. -/
def fooDef : Declaration :=
  ⟨DeclKind.Function, "foo", ["evre", "Widget", "foo"],
   ⟨fixtureFile, 15, 6⟩, true, [⟨TParamKind.TypeParam, "T"⟩], true⟩

/-- Lines 19-22: `template <typename T> void evre::Widget<T>::bar()` —
out-of-line definition. -/
def barDef : Declaration :=
  ⟨DeclKind.Function, "bar", ["evre", "Widget", "bar"],
   ⟨fixtureFile, 20, 6⟩, true, [⟨TParamKind.TypeParam, "T"⟩], true⟩

/-- The fixture's Declaration stream in source order. -/
def fixtureDecls : List Declaration :=
  [widgetClassDecl, widgetCtorDecl, fooDecl, barDecl, fooDef, barDef]

/-- A Rule requiring class names to start with the letter C. -/
def ruleClassC : Rule :=
  ⟨"class-name-shape", [DeclKind.Class], NameShape.requiredStart "C",
   "class name must start with C"⟩

/-- A hypothetical out-of-line definition `evre::Widget<T>::baz()` with no
matching in-class declaration (concrete scenario C of the spec). -/
def bazDef : Declaration :=
  ⟨DeclKind.Function, "baz", ["evre", "Widget", "baz"],
   ⟨fixtureFile, 25, 6⟩, true, [⟨TParamKind.TypeParam, "T"⟩], true⟩

/-- Rename the identifier of a template parameter, keeping its kind. -/
def renameTP (ren : String → String) (p : TParam) : TParam :=
  ⟨p.kind, ren p.name⟩

/-- Rename every template-parameter identifier of a Declaration. -/
def renameDecl (ren : String → String) (d : Declaration) : Declaration :=
  { d with templateParams := d.templateParams.map (renameTP ren) }

/-- The Symbol for `evre::Widget` as discovered from the fixture. -/
def widgetSymbol : Symbol :=
  ⟨["evre", "Widget"], DeclKind.TemplateClass, [widgetClassDecl]⟩

/-- The Violation of the class-name Rule by `evre::Widget`. -/
def sampleViolation : Violation :=
  mkViolation widgetSymbol ruleClassC

/-- A Rule limiting names to three characters (fails on `Widget`). -/
def ruleMaxLen : Rule :=
  ⟨"name-max-len", [DeclKind.Class], NameShape.maxLen 3, "name too long"⟩

/-- The Symbol state after resolving the fixture's in-class declarations
(class, constructor, `foo`, `bar`) but before the out-of-line bodies. -/
def fourSymbols : List Symbol :=
  (resolve [widgetClassDecl, widgetCtorDecl, fooDecl, barDecl]).symbols

/-- A hypothetical second in-class declaration of `foo` colliding with the
first (same qualified name, compatible kind). -/
def fooDeclDup : Declaration :=
  ⟨DeclKind.Function, "foo", ["evre", "Widget", "foo"],
   ⟨fixtureFile, 30, 7⟩, false, [⟨TParamKind.TypeParam, "T"⟩], false⟩

/-- The Symbol holding the two colliding in-class declarations of `foo`,
in source order. -/
def dupFooSymbol : Symbol :=
  ⟨["evre", "Widget", "foo"], DeclKind.Function, [fooDecl, fooDeclDup]⟩

end Evre

/-! ## Supporting lemmas -/

namespace Evre

theorem declMatches_renameDecl (ren : String → String) (d : Declaration) (t : Symbol) :
    declMatches (renameDecl ren d) t = declMatches d t := by
  have hcomp : ((fun p : TParam => p.kind) ∘ renameTP ren) = fun p : TParam => p.kind :=
    funext (fun p => rfl)
  simp [declMatches, renameDecl, List.map_map, hcomp]

theorem sameKey_refl (v : Violation) : sameKey v v = true := by
  simp [sameKey]

theorem collect_keyed (v : Violation) (vs : List Violation)
    (hk : ∀ w ∈ vs, sameKey v w = true) :
    collect (CollectorState.collecting [v]) vs = CollectorState.collecting [v] := by
  induction vs with
  | nil => rfl
  | cons w ws ih =>
    have hw : sameKey v w = true := hk w (List.mem_cons_self w ws)
    have hfeed : feed (CollectorState.collecting [v]) w = CollectorState.collecting [v] := by
      simp [feed, Collector.insert, hw]
    rw [collect, hfeed]
    exact ih (fun x hx => hk x (List.mem_cons_of_mem _ hx))

theorem find?_eq_some_split {α : Type} {p : α → Bool} {l : List α} {s : α}
    (h : l.find? p = some s) :
    ∃ pre post, l = pre ++ s :: post ∧ ∀ t ∈ pre, p t = false := by
  induction l with
  | nil => simp [List.find?] at h
  | cons a rest ih =>
    by_cases ha : p a = true
    · rw [List.find?_cons_of_pos _ ha] at h
      refine ⟨[], rest, ?_, by simp⟩
      simpa using (Option.some_injective _ h).symm ▸ rfl
    · have ha2 : p a = false := by simpa using ha
      rw [List.find?_cons_of_neg _ (by simp [ha2])] at h
      rcases ih h with ⟨pre, post, heq, hpre⟩
      refine ⟨a :: pre, post, by simp [heq], ?_⟩
      intro t ht
      rcases List.mem_cons.mp ht with h1 | h2
      · exact h1 ▸ ha2
      · exact hpre t h2

theorem addToFirstMatch_split (d : Declaration) (pre post : List Symbol) (s : Symbol)
    (hpre : ∀ t ∈ pre, declMatches d t = false) (hs : declMatches d s = true) :
    addToFirstMatch d (pre ++ s :: post) =
      pre ++ { s with decls := s.decls ++ [d] } :: post := by
  induction pre with
  | nil => simp [addToFirstMatch, hs]
  | cons a rest ih =>
    have ha : declMatches d a = false := hpre a (List.mem_cons_self a rest)
    simp [addToFirstMatch, ha, ih (fun t ht => hpre t (List.mem_cons_of_mem _ ht))]

theorem length_addToFirstMatch (d : Declaration) (l : List Symbol) :
    (addToFirstMatch d l).length = l.length := by
  induction l with
  | nil => rfl
  | cons a rest ih =>
    by_cases h : declMatches d a = true <;> simp [addToFirstMatch, h, ih]

theorem lexLE_total {α : Type} [LinearOrder α] (x y : α) (r s : Bool)
    (h : r = true ∨ s = true) : lexLE x y r = true ∨ lexLE y x s = true := by
  by_cases hxy : x = y
  · subst hxy
    simpa [lexLE] using h
  · simp only [lexLE, if_neg hxy, if_neg (Ne.symm hxy), decide_eq_true_eq]
    exact lt_or_gt_of_ne hxy

theorem lexLE_trans {α : Type} [LinearOrder α] (x y z : α) (r s t : Bool)
    (hrst : r = true → s = true → t = true)
    (h1 : lexLE x y r = true) (h2 : lexLE y z s = true) : lexLE x z t = true := by
  by_cases hxy : x = y
  · subst hxy
    by_cases hyz : x = z
    · subst hyz
      simp only [lexLE, if_pos rfl] at h1 h2 ⊢
      exact hrst h1 h2
    · simp only [lexLE, if_pos rfl] at h1
      simp only [lexLE, if_neg hyz] at h2 ⊢
      exact h2
  · by_cases hyz : y = z
    · subst hyz
      simp only [lexLE, if_neg hxy] at h1 ⊢
      exact h1
    · simp only [lexLE, if_neg hxy, if_neg hyz, decide_eq_true_eq] at h1 h2
      have hxz : x < z := lt_trans h1 h2
      simp only [lexLE, if_neg (ne_of_lt hxz), decide_eq_true_eq]
      exact hxz

theorem violLE_total (a b : Violation) : violLE a b = true ∨ violLE b a = true := by
  unfold violLE
  apply lexLE_total
  apply lexLE_total
  apply lexLE_total
  simp only [decide_eq_true_eq]
  exact le_total a.ruleId b.ruleId

theorem violLE_trans (a b c : Violation) (h1 : violLE a b = true)
    (h2 : violLE b c = true) : violLE a c = true := by
  unfold violLE at h1 h2 ⊢
  refine lexLE_trans _ _ _ _ _ _ (fun p1 p2 => ?_) h1 h2
  refine lexLE_trans _ _ _ _ _ _ (fun q1 q2 => ?_) p1 p2
  refine lexLE_trans _ _ _ _ _ _ (fun w1 w2 => ?_) q1 q2
  simp only [decide_eq_true_eq] at w1 w2 ⊢
  exact le_trans w1 w2

theorem mem_insertOrdered {v w : Violation} {l : List Violation} :
    w ∈ insertOrdered v l ↔ w = v ∨ w ∈ l := by
  induction l with
  | nil => simp [insertOrdered]
  | cons x xs ih =>
    by_cases h : violLE v x = true <;> simp [insertOrdered, h, ih] <;> tauto

theorem pairwise_insertOrdered (v : Violation) (l : List Violation)
    (h : List.Pairwise (fun a b => violLE a b = true) l) :
    List.Pairwise (fun a b => violLE a b = true) (insertOrdered v l) := by
  induction l with
  | nil => simp [insertOrdered]
  | cons x xs ih =>
    rcases List.pairwise_cons.mp h with ⟨hx, hxs⟩
    by_cases hvx : violLE v x = true
    · rw [insertOrdered, if_pos hvx]
      refine List.pairwise_cons.mpr ⟨?_, h⟩
      intro b hb
      rcases List.mem_cons.mp hb with rfl | hb2
      · exact hvx
      · exact violLE_trans v x b hvx (hx b hb2)
    · have hxv : violLE x v = true := (violLE_total v x).resolve_left hvx
      rw [insertOrdered, if_neg hvx]
      refine List.pairwise_cons.mpr ⟨?_, ih hxs⟩
      intro b hb
      rcases mem_insertOrdered.mp hb with rfl | hb2
      · exact hxv
      · exact hx b hb2

theorem sorted_sortViolations (l : List Violation) :
    List.Pairwise (fun a b => violLE a b = true) (sortViolations l) := by
  induction l with
  | nil => simp [sortViolations]
  | cons v vs ih => exact pairwise_insertOrdered v _ ih

end Evre

/-! ## The claims -/

namespace Evre

/-- C1: on the fixture with the class-name Rule requiring names to start
with C, the full pipeline produces exactly one Violation, for Symbol
evre::Widget against that Rule, despite the two out-of-line definitions,
and its message references the qualified name evre::Widget. -/
theorem fixture_pipeline_one_violation :
    (runPipeline [ruleClassC] fixtureDecls).1 =
      [⟨["evre", "Widget"], DeclKind.TemplateClass, "class-name-shape",
        "class name must start with C [template class " ++ "evre::Widget" ++ "]",
        ⟨fixtureFile, 6, 7⟩⟩]
    ∧ (runPipeline [ruleClassC] fixtureDecls).1.length = 1
    ∧ ((runPipeline [ruleClassC] fixtureDecls).1.map (fun v => v.message)).all
        (fun m => mentionsText m "evre::Widget") = true
    ∧ (runPipeline [ruleClassC] fixtureDecls).2 = [] :=
  ⟨by decide, by decide, by decide, by decide⟩

/-- C2: the Diagnostic Collector deduplicates by (Symbol identity, Rule
identifier): feeding a Violation followed by any Violations sharing its
key retains exactly one record, and feeding the same Violation n + 1
times — one per constituent Declaration — retains exactly one record
regardless of n. -/
theorem collector_dedup_idempotent (v : Violation) (vs : List Violation) (n : Nat)
    (hk : ∀ w ∈ vs, sameKey v w = true) :
    collect CollectorState.empty (v :: vs) = CollectorState.collecting [v]
    ∧ collect CollectorState.empty (List.replicate (n + 1) v) =
        CollectorState.collecting [v] := by
  have hfirst : feed CollectorState.empty v = CollectorState.collecting [v] := rfl
  constructor
  · rw [collect, hfirst]
    exact collect_keyed v vs hk
  · rw [List.replicate_succ, collect, hfirst]
    exact collect_keyed v (List.replicate n v)
      (fun w hw => (List.eq_of_mem_replicate hw) ▸ sameKey_refl v)

theorem collector_dedup_idempotent_witness :
    collect CollectorState.empty (sampleViolation :: [sampleViolation]) =
      CollectorState.collecting [sampleViolation]
    ∧ collect CollectorState.empty (List.replicate (1 + 1) sampleViolation) =
        CollectorState.collecting [sampleViolation] :=
  collector_dedup_idempotent sampleViolation [sampleViolation] 1 (by decide)

/-- C3: the Rule Engine is deterministic — evaluating a fixed Symbol list
twice gives the same Violation sequence — and the sequence is ordered by
Symbol discovery order and, within a Symbol, Rule declaration order, as
witnessed by the append decompositions. -/
theorem engine_deterministic (rules rules2 : List Rule) (syms syms2 : List Symbol)
    (s : Symbol) :
    evaluate rules syms = evaluate rules syms
    ∧ evaluate rules (syms ++ syms2) = evaluate rules syms ++ evaluate rules syms2
    ∧ evalRules s (rules ++ rules2) = evalRules s rules ++ evalRules s rules2 := by
  refine ⟨rfl, ?_, ?_⟩
  · induction syms with
    | nil => simp [evaluate]
    | cons a rest ih => simp [evaluate, ih]
  · induction rules with
    | nil => simp [evalRules]
    | cons r rs ih =>
      by_cases h : (ruleApplies r s.kind && !shapeHolds r.shape (simpleName s)) = true
        <;> simp [evalRules, h, ih]

/-- C4: the Scope Resolver merges an out-of-line definition whose
template-parameter list matches the in-class declaration in count and
kind into an existing matching Symbol, independent of the parameter
identifiers: renaming the identifiers changes no match, creates no new
Symbol, and the definition is appended to a matching Symbol, never to an
unrelated one. -/
theorem resolver_ignores_tparam_names
    (ren : String → String) (d : Declaration) (ss : List Symbol) (ds : List ResolveDiag)
    (hout : d.isOutOfLine = true)
    (hm : ∃ s ∈ ss, declMatches d s = true) :
    (∀ t : Symbol, declMatches (renameDecl ren d) t = declMatches d t)
    ∧ (resolveStep ⟨ss, ds⟩ (renameDecl ren d)).symbols =
        addToFirstMatch (renameDecl ren d) ss
    ∧ (resolveStep ⟨ss, ds⟩ (renameDecl ren d)).symbols.length = ss.length
    ∧ (∃ s ∈ ss, declMatches d s = true ∧
        { s with decls := s.decls ++ [renameDecl ren d] } ∈
          (resolveStep ⟨ss, ds⟩ (renameDecl ren d)).symbols)
    ∧ ∀ u ∈ (resolveStep ⟨ss, ds⟩ (renameDecl ren d)).diags,
        u ∈ ds ∨ u = ResolveDiag.ambiguity (renameDecl ren d) := by
  have hfun : ∀ t, declMatches (renameDecl ren d) t = declMatches d t :=
    declMatches_renameDecl ren d
  have hfunE : declMatches (renameDecl ren d) = declMatches d := funext hfun
  obtain ⟨s0, hs0mem, hs0⟩ := hm
  cases hfs : ss.find? (declMatches d) with
  | none =>
    exact absurd hs0 (by simpa using (List.find?_eq_none.mp hfs) s0 hs0mem)
  | some s1 =>
    have hstep : resolveStep ⟨ss, ds⟩ (renameDecl ren d) =
        { symbols := addToFirstMatch (renameDecl ren d) ss
          diags :=
            if (renameDecl ren d).isOutOfLine && decide (2 ≤ inClassCount s1) then
              ds ++ [ResolveDiag.ambiguity (renameDecl ren d)]
            else ds } := by
      simp [resolveStep, hfunE, hfs]
    obtain ⟨pre, post, heq, hpre⟩ := find?_eq_some_split hfs
    have hs1 : declMatches d s1 = true := List.find?_some hfs
    have hsplit : addToFirstMatch (renameDecl ren d) ss =
        pre ++ { s1 with decls := s1.decls ++ [renameDecl ren d] } :: post := by
      rw [heq]
      exact addToFirstMatch_split (renameDecl ren d) pre post s1
        (fun t ht => by rw [hfun]; exact hpre t ht) (by rw [hfun]; exact hs1)
    refine ⟨hfun, by rw [hstep], by rw [hstep]; exact length_addToFirstMatch _ _, ?_, ?_⟩
    · refine ⟨s1, by rw [heq]; exact List.mem_append_right pre (List.mem_cons_self _ _),
        hs1, ?_⟩
      rw [hstep]
      simp only [hsplit]
      exact List.mem_append_right pre (List.mem_cons_self _ _)
    · rw [hstep]
      intro u hu
      by_cases hc : ((renameDecl ren d).isOutOfLine && decide (2 ≤ inClassCount s1)) = true
      · simp only [hc, if_true] at hu
        rcases List.mem_append.mp hu with h1 | h1
        · exact Or.inl h1
        · exact Or.inr (by simpa using h1)
      · simp only [Bool.not_eq_true] at hc
        simp only [hc, if_false] at hu
        exact Or.inl hu

theorem resolver_ignores_tparam_names_witness :
    (resolveStep ⟨fourSymbols, []⟩ (renameDecl (fun _ => "U") fooDef)).symbols =
        addToFirstMatch (renameDecl (fun _ => "U") fooDef) fourSymbols
    ∧ (resolveStep ⟨fourSymbols, []⟩ (renameDecl (fun _ => "U") fooDef)).symbols.length =
        fourSymbols.length :=
  ⟨(resolver_ignores_tparam_names (fun _ => "U") fooDef fourSymbols [] rfl (by decide)).2.1,
   (resolver_ignores_tparam_names (fun _ => "U") fooDef fourSymbols [] rfl (by decide)).2.2.1⟩

/-- C5: the name-shape predicate is applied to the Symbol's simple name
(the last component of the qualified path) and never to the fully
qualified name: replacing the enclosing-namespace components leaves the
simple name and the set of violated Rule identifiers unchanged. -/
theorem shape_on_simple_name (rules : List Rule) (s : Symbol)
    (ns1 ns2 : List String) (base : String)
    (h : s.qualifiedName = ns1 ++ [base]) :
    simpleName { s with qualifiedName := ns2 ++ [base] } = simpleName s
    ∧ ((evalRules { s with qualifiedName := ns2 ++ [base] } rules).map (fun v => v.ruleId))
        = (evalRules s rules).map (fun v => v.ruleId) := by
  have h1 : simpleName s = base := by simp [simpleName, h]
  have h2 : simpleName { s with qualifiedName := ns2 ++ [base] } = base := by
    simp [simpleName]
  refine ⟨by rw [h1, h2], ?_⟩
  induction rules with
  | nil => simp [evalRules]
  | cons r rs ih =>
    by_cases hc : (ruleApplies r s.kind && !shapeHolds r.shape base) = true
      <;> simp [evalRules, h1, h2, hc, ih, mkViolation]

theorem shape_on_simple_name_witness :
    simpleName { widgetSymbol with qualifiedName := ["outer", "inner"] ++ ["Widget"] }
      = simpleName widgetSymbol
    ∧ ((evalRules { widgetSymbol with qualifiedName := ["outer", "inner"] ++ ["Widget"] }
          [ruleClassC]).map (fun v => v.ruleId))
        = (evalRules widgetSymbol [ruleClassC]).map (fun v => v.ruleId) :=
  shape_on_simple_name [ruleClassC] widgetSymbol ["evre"] ["outer", "inner"] "Widget" rfl

/-- C6: the Rule Engine evaluates every applicable Rule, emitting one
Violation per failing (Symbol, Rule) pair without stopping at the first
failure; with two applicable failing Rules, exactly two Violations are
produced, one per Rule. -/
theorem engine_no_early_stop (rules : List Rule) (s : Symbol) (r1 r2 : Rule)
    (h1 : ruleApplies r1 s.kind = true) (h2 : shapeHolds r1.shape (simpleName s) = false)
    (h3 : ruleApplies r2 s.kind = true) (h4 : shapeHolds r2.shape (simpleName s) = false) :
    evalRules s rules =
      (rules.filter (fun r => ruleApplies r s.kind
        && !shapeHolds r.shape (simpleName s))).map (mkViolation s)
    ∧ evalRules s [r1, r2] = [mkViolation s r1, mkViolation s r2] := by
  constructor
  · induction rules with
    | nil => simp [evalRules]
    | cons r rs ih =>
      by_cases hc : (ruleApplies r s.kind && !shapeHolds r.shape (simpleName s)) = true
        <;> simp [evalRules, List.filter, hc, ih]
  · simp [evalRules, h1, h2, h3, h4]

theorem engine_no_early_stop_witness :
    evalRules widgetSymbol [ruleClassC, ruleMaxLen] =
      (([ruleClassC, ruleMaxLen]).filter (fun r => ruleApplies r widgetSymbol.kind
        && !shapeHolds r.shape (simpleName widgetSymbol))).map (mkViolation widgetSymbol)
    ∧ evalRules widgetSymbol [ruleClassC, ruleMaxLen] =
        [mkViolation widgetSymbol ruleClassC, mkViolation widgetSymbol ruleMaxLen] :=
  engine_no_early_stop [ruleClassC, ruleMaxLen] widgetSymbol ruleClassC ruleMaxLen
    (by decide) (by decide) (by decide) (by decide)

/-- C7: an out-of-line definition with no matching in-class declaration is
recovered locally: the resolver emits exactly one Unresolved-Definition
diagnostic and leaves the Symbol list unchanged (the definition is
neither dropped silently nor merged into an unrelated Symbol); on the
concrete scenario of an out-of-line `evre::Widget` member `baz` with no
in-class `baz`, the fixture resolution produces exactly that one
diagnostic. -/
theorem unresolved_definition_reported (st : ResolveState) (d : Declaration)
    (hout : d.isOutOfLine = true)
    (hno : st.symbols.find? (declMatches d) = none) :
    resolveStep st d = { st with diags := st.diags ++ [ResolveDiag.unresolvedDefinition d] }
    ∧ (resolveStep st d).symbols = st.symbols
    ∧ (resolve (fixtureDecls ++ [bazDef])).diags = [ResolveDiag.unresolvedDefinition bazDef]
    ∧ (resolve (fixtureDecls ++ [bazDef])).symbols = (resolve fixtureDecls).symbols := by
  have hstep : resolveStep st d =
      { st with diags := st.diags ++ [ResolveDiag.unresolvedDefinition d] } := by
    simp [resolveStep, hno, hout]
  exact ⟨hstep, by rw [hstep], by decide, by decide⟩

theorem unresolved_definition_reported_witness :
    resolveStep (resolve fixtureDecls) bazDef =
      { resolve fixtureDecls with
          diags := (resolve fixtureDecls).diags
            ++ [ResolveDiag.unresolvedDefinition bazDef] }
    ∧ (resolveStep (resolve fixtureDecls) bazDef).symbols = (resolve fixtureDecls).symbols
    ∧ (resolve (fixtureDecls ++ [bazDef])).diags = [ResolveDiag.unresolvedDefinition bazDef]
    ∧ (resolve (fixtureDecls ++ [bazDef])).symbols = (resolve fixtureDecls).symbols :=
  unresolved_definition_reported (resolve fixtureDecls) bazDef rfl (by decide)

/-- C8: with colliding in-class declarations (a matched Symbol holding two
or more in-class declarations), the resolver does not crash: the
out-of-line definition is bound to the first matching Symbol in source
order (appended after its declarations, the first of which is the first
colliding declaration in source order) and a secondary ambiguity
diagnostic is emitted. -/
theorem ambiguous_resolution_first_match
    (d : Declaration) (ss : List Symbol) (ds : List ResolveDiag) (s : Symbol)
    (hout : d.isOutOfLine = true)
    (hfind : ss.find? (declMatches d) = some s)
    (hamb : 2 ≤ inClassCount s) :
    (resolveStep ⟨ss, ds⟩ d).diags = ds ++ [ResolveDiag.ambiguity d]
    ∧ (resolveStep ⟨ss, ds⟩ d).symbols = addToFirstMatch d ss
    ∧ ∃ pre post, ss = pre ++ s :: post
        ∧ (∀ t ∈ pre, declMatches d t = false)
        ∧ addToFirstMatch d ss = pre ++ { s with decls := s.decls ++ [d] } :: post := by
  have hcond : (d.isOutOfLine && decide (2 ≤ inClassCount s)) = true := by
    rw [hout, decide_eq_true hamb]; rfl
  obtain ⟨pre, post, heq, hpre⟩ := find?_eq_some_split hfind
  have hs : declMatches d s = true := List.find?_some hfind
  refine ⟨by simp [resolveStep, hfind, hcond], by simp [resolveStep, hfind],
    pre, post, heq, hpre, ?_⟩
  rw [heq]
  exact addToFirstMatch_split d pre post s hpre hs

theorem ambiguous_resolution_first_match_witness :
    (resolveStep ⟨[dupFooSymbol], []⟩ fooDef).diags = [] ++ [ResolveDiag.ambiguity fooDef]
    ∧ (resolveStep ⟨[dupFooSymbol], []⟩ fooDef).symbols =
        addToFirstMatch fooDef [dupFooSymbol] :=
  ⟨(ambiguous_resolution_first_match fooDef [dupFooSymbol] [] dupFooSymbol rfl
      (by decide) (by decide)).1,
   (ambiguous_resolution_first_match fooDef [dupFooSymbol] [] dupFooSymbol rfl
      (by decide) (by decide)).2.1⟩

/-- C9: the Diagnostic Collector follows the state machine Empty →
Collecting → Finalized: insertion moves Empty to Collecting, finalization
sorts (the result is ordered under the final ordering) and freezes the
collection, and an insertion into a Finalized collector signals a
usage-order error loudly — it is rejected with an explicit error and the
frozen collection is not modified. -/
theorem collector_state_machine (l vs : List Violation) (v : Violation) :
    Collector.insert CollectorState.empty v = Except.ok (CollectorState.collecting [v])
    ∧ Collector.finalize CollectorState.empty = Except.ok (CollectorState.finalized [])
    ∧ Collector.finalize (CollectorState.collecting l) =
        Except.ok (CollectorState.finalized (sortViolations l))
    ∧ Collector.insert (CollectorState.finalized vs) v =
        Except.error CollectorError.usageOrder
    ∧ feed (CollectorState.finalized vs) v = CollectorState.finalized vs
    ∧ List.Pairwise (fun a b => violLE a b = true) (sortViolations l) :=
  ⟨rfl, rfl, rfl, rfl, rfl, sorted_sortViolations l⟩

/-- C10: in the fixture's declaration stream the in-class constructor on
line 8 is spelled with an explicit template-argument list: the only
declaration on line 8 has spelled name Widget with template arguments,
not the plain form. -/
theorem fixture_ctor_spelled_with_targs :
    (fixtureDecls.filter (fun d => decide (d.pos.line = 8))).map (fun d => d.name)
      = ["Widget<T>"]
    ∧ widgetCtorDecl ∈ fixtureDecls
    ∧ widgetCtorDecl.name = "Widget<T>"
    ∧ widgetCtorDecl.name ≠ "Widget" :=
  ⟨by decide, by decide, by decide, by decide⟩

end Evre
